import Mathlib

/-!
Verification of the feedback-core library (coalescing scheduler, retry
executor, pipeline runner, orchestrator) against its specification.

The TypeScript sources are shallowly embedded: pure computations become
Lean functions, stateful objects become explicit state records with
transition functions, promises/exceptions become `Except`, and the
single-threaded event loop is modelled by processing events in order.
Randomness (`Math.random`) is passed in as an explicit rational draw in
`[0,1]`, and the external unique-ID generator (spec section 6) is
modelled as an explicit fresh-id supply threaded through collection.
-/

namespace FeedbackCore

/-! ## Retry executor (src/core/retry.ts) -/

/-- Backoff policies of `RetryConfig.backoff`. -/
inductive Backoff : Type
  | exponential
  | linear
  | fixed
deriving DecidableEq

/-- The raw policy value computed by the `switch` in `calculateDelay`:
exponential `baseDelay * 2^(attempt-1)`, linear `baseDelay * attempt`,
fixed `baseDelay`. -/
def rawDelay (backoff : Backoff) (attempt : ℕ) (baseDelay : ℚ) : ℚ :=
  match backoff with
  | .exponential => baseDelay * 2 ^ (attempt - 1)
  | .linear => baseDelay * (attempt : ℚ)
  | .fixed => baseDelay

/-- JavaScript `Math.round`: round half toward positive infinity. -/
def jsRound (x : ℚ) : ℤ := Int.floor (x + 1 / 2)

/-- `calculateDelay` from src/core/retry.ts.  `rand` is the value of
`Math.random()` (a draw in `[0,1)`).  The code perturbs the raw policy
value by `delay * 0.1 * (rand * 2 - 1)` and then clamps the sum with
`Math.min(·, maxDelay)` before rounding. -/
def calculateDelay (attempt : ℕ) (baseDelay maxDelay : ℚ) (backoff : Backoff)
    (rand : ℚ) : ℤ :=
  let delay := rawDelay backoff attempt baseDelay
  let jitter := delay * (1 / 10) * (rand * 2 - 1)
  jsRound (min (delay + jitter) maxDelay)

/-- Retry options (src/types/config.ts `RetryConfig`), with the error type
abstract.  The `onRetry` observer of the source is not a field here: its
invocations are recorded in the event trace produced by `withRetry`. -/
structure RetryOptions (ε : Type) where
  attempts : ℕ
  baseDelay : ℚ
  maxDelay : ℚ
  backoff : Backoff
  retryOn : Option (ε → Bool)

/-- Observable events of one `withRetry` run: each invocation of the
wrapped operation, each `onRetry` observer call, and each sleep. -/
inductive RetryEvent (ε : Type) : Type
  | tried (attempt : ℕ)
  | onRetry (attempt : ℕ) (err : ε) (delayMs : ℤ)
  | sleep (delayMs : ℤ)
deriving DecidableEq

/-- Result of a `withRetry` run: success, an error vetoed by `retryOn`
(rethrown unwrapped), or a `RetryExhaustedError` carrying the attempt
count and the last underlying error. -/
inductive RetryResult (ε α : Type) : Type
  | ok (a : α)
  | vetoed (e : ε)
  | exhausted (attempts : ℕ) (lastError : Option ε)
deriving DecidableEq

/-- The guard `retryOn && !retryOn(lastError)` of the source, as the
condition for continuing to retry. -/
def shouldRetry (o : RetryOptions ε) (e : ε) : Bool :=
  match o.retryOn with
  | some p => p e
  | none => true

/-- The `for (let attempt = 1; attempt <= attempts; ...)` loop of
`withRetry`.  `fn k` is the outcome of the `k`-th invocation of the
wrapped operation, `rand k` the random draw used for the delay after
attempt `k`.  The fuel counts the remaining loop iterations; running out
of fuel is the loop exit that throws `RetryExhaustedError`. -/
def retryGo (fn : ℕ → Except ε α) (o : RetryOptions ε) (rand : ℕ → ℚ) :
    ℕ → ℕ → Option ε → RetryResult ε α × List (RetryEvent ε)
  | 0, _, last => (RetryResult.exhausted o.attempts last, [])
  | fuel + 1, attempt, _ =>
    match fn attempt with
    | .ok a => (RetryResult.ok a, [RetryEvent.tried attempt])
    | .error e =>
      if shouldRetry o e = false then
        (RetryResult.vetoed e, [RetryEvent.tried attempt])
      else if o.attempts ≤ attempt then
        (RetryResult.exhausted o.attempts (some e), [RetryEvent.tried attempt])
      else
        let d := calculateDelay attempt o.baseDelay o.maxDelay o.backoff (rand attempt)
        let r := retryGo fn o rand fuel (attempt + 1) (some e)
        (r.1, RetryEvent.tried attempt :: RetryEvent.onRetry attempt e d ::
          RetryEvent.sleep d :: r.2)

/-- `withRetry` from src/core/retry.ts: run the loop from attempt 1 with
no last error recorded. -/
def withRetry (fn : ℕ → Except ε α) (o : RetryOptions ε) (rand : ℕ → ℚ) :
    RetryResult ε α × List (RetryEvent ε) :=
  retryGo fn o rand o.attempts 1 none

/-- The event trace of `c` consecutive failing-and-retried attempts
starting at attempt `a`: each contributes its invocation, the awaited
`onRetry` call, and the sleep for the computed delay. -/
def retrySeg (o : RetryOptions ε) (rand : ℕ → ℚ) (errOf : ℕ → ε) :
    ℕ → ℕ → List (RetryEvent ε)
  | 0, _ => []
  | c + 1, a =>
    RetryEvent.tried a ::
    RetryEvent.onRetry a (errOf a) (calculateDelay a o.baseDelay o.maxDelay o.backoff (rand a)) ::
    RetryEvent.sleep (calculateDelay a o.baseDelay o.maxDelay o.backoff (rand a)) ::
    retrySeg o rand errOf c (a + 1)

/-! ## Coalescing scheduler (src/core/debouncer.ts)

The Debouncer instance state.  Timer handles are modelled by whether the
corresponding timer is armed; promise executors are modelled by opaque
waiter identifiers.  An execution of the wrapped function is an effect
`(args, waiters)`: the function is invoked once with `args` and every
waiter in `waiters` is settled with that single invocation's outcome. -/

structure DebouncerOptions where
  wait : ℕ
  maxWait : Option ℕ
  leading : Bool
deriving DecidableEq

structure DebouncerState (σ : Type) where
  timeoutArmed : Bool
  maxWaitArmed : Bool
  lastArgs : Option σ
  leadingExecuted : Bool
  pendingPromises : List ℕ
deriving DecidableEq

/-- The freshly constructed Debouncer. -/
def initState (σ : Type) : DebouncerState σ :=
  ⟨false, false, none, false, []⟩

/-- `Debouncer.execute`: clear both timers, snapshot and clear the
pending args, waiter list and leading flag, then (if args were pending)
invoke the wrapped function once with the snapshot.  The returned list
holds the execution effect (empty when nothing was pending). -/
def execute (s : DebouncerState σ) : DebouncerState σ × List (σ × List ℕ) :=
  let cleared : DebouncerState σ :=
    { timeoutArmed := false, maxWaitArmed := false, lastArgs := none,
      leadingExecuted := false, pendingPromises := [] }
  match s.lastArgs with
  | none => (cleared, [])
  | some a => (cleared, [(a, s.pendingPromises)])

/-- `Debouncer.call`: record the args as the latest snapshot, enqueue the
caller's waiter, then either fire the leading edge or (re)arm the
trailing timer and, if configured and not yet armed, the maxWait timer. -/
def call (o : DebouncerOptions) (s : DebouncerState σ) (args : σ) (pid : ℕ) :
    DebouncerState σ × List (σ × List ℕ) :=
  let s1 := { s with lastArgs := some args, pendingPromises := s.pendingPromises ++ [pid] }
  if o.leading && !s1.leadingExecuted then
    execute { s1 with leadingExecuted := true }
  else
    let s2 := { s1 with timeoutArmed := true }
    let s3 := if o.maxWait.isSome && !s2.maxWaitArmed then { s2 with maxWaitArmed := true } else s2
    (s3, [])

/-- A burst: a sequence of calls close enough together that no timer
fires in between.  Returns the final state and all execution effects
triggered synchronously by the calls themselves. -/
def callBurst (o : DebouncerOptions) :
    DebouncerState σ → List (σ × ℕ) → DebouncerState σ × List (σ × List ℕ)
  | s, [] => (s, [])
  | s, (a, pid) :: rest =>
    let r := call o s a pid
    let r2 := callBurst o r.1 rest
    (r2.1, r.2 ++ r2.2)

/-- Settlement of one execution: every waiter captured in the snapshot
receives the one outcome of the single invocation (the resolve loop on
success, the reject loop on failure). -/
def settle (out : ρ) (waiters : List ℕ) : List (ℕ × ρ) :=
  waiters.map (fun w => (w, out))

/-! ## Data model and pipeline runner (src/core/pipeline.ts) -/

/-- `ValidationResult` from src/types/feedback.ts. -/
structure ValidationResult where
  valid : Bool
  errors : List String
deriving DecidableEq

/-- Feedback metadata, modelled as an association list. -/
abbrev Metadata := List (String × String)

/-- `FeedbackItem`.  Ids are drawn from the external unique-ID supply and
modelled as naturals; the `type` field is named `itemType` because `type`
is a Lean keyword. -/
structure FeedbackItem (δ : Type) where
  id : ℕ
  itemType : String
  data : δ
  metadata : Metadata
  timestamp : ℕ
deriving DecidableEq

/-- `CollectionContext`: the ephemeral view passed to before-collect
hooks. -/
structure CollectionContext (δ : Type) where
  ctype : String
  data : δ
  metadata : Metadata
  timestamp : ℕ

/-- The `phase` field of `PluginError` (src/utils/errors.ts). -/
inductive Phase : Type
  | install
  | validate
  | transform
  | handle
deriving DecidableEq

/-- The error family of src/utils/errors.ts.  `external` stands for an
arbitrary non-library error thrown by an externally supplied hook. -/
inductive FbError (ε : Type) : Type
  | validation (errors : List String)
  | plugin (pluginName : String) (phase : Phase) (cause : ε)
  | cancelled (reason : String)
  | retryExhausted (attempts : ℕ) (lastError : Option (FbError ε))
  | external (e : ε)

/-- A validator plugin: `{name, validate(data)}`; a thrown error is an
`Except.error`. -/
structure ValidatorPlugin (δ ε : Type) where
  name : String
  validate : δ → Except ε ValidationResult

/-- A transformer plugin: `{name, transform(item)}`. -/
structure TransformerPlugin (δ ε : Type) where
  name : String
  transform : FeedbackItem δ → Except ε (FeedbackItem δ)

/-- A handler plugin: `{name, handle(item)}`. -/
structure HandlerPlugin (δ ε : Type) where
  name : String
  handle : FeedbackItem δ → Except ε Unit

/-- `PluginRegistry`: three ordered lists partitioned by plugin kind. -/
structure PluginRegistry (δ ε : Type) where
  validators : List (ValidatorPlugin δ ε)
  transformers : List (TransformerPlugin δ ε)
  handlers : List (HandlerPlugin δ ε)

/-- The discriminated capability of a `FeedbackPlugin` (its `type` field
together with the corresponding method). -/
inductive PluginKind (δ ε : Type) : Type
  | validator (v : δ → Except ε ValidationResult)
  | transformer (t : FeedbackItem δ → Except ε (FeedbackItem δ))
  | handler (h : FeedbackItem δ → Except ε Unit)

/-- A plugin as passed to `use`: name, kind, and the outcome of its
optional `install` hook (the hook's effects on the collector beyond
success or failure are outside this model). -/
structure FeedbackPlugin (δ ε : Type) where
  name : String
  kind : PluginKind δ ε
  install : Option (Except ε Unit)

/-- `registerPlugin`: append to the list matching the declared kind. -/
def registerPlugin (r : PluginRegistry δ ε) (p : FeedbackPlugin δ ε) :
    PluginRegistry δ ε :=
  match p.kind with
  | .validator v => { r with validators := r.validators ++ [⟨p.name, v⟩] }
  | .transformer t => { r with transformers := r.transformers ++ [⟨p.name, t⟩] }
  | .handler h => { r with handlers := r.handlers ++ [⟨p.name, h⟩] }

/-- Total number of registered plugins. -/
def pluginCount (r : PluginRegistry δ ε) : ℕ :=
  r.validators.length + r.transformers.length + r.handlers.length

/-- The accumulator loop of `runValidators`: a thrown validator is
wrapped into a `PluginError` with phase `validate` at the call site; an
invalid result has its errors appended. -/
def runValidatorsAux (data : δ) :
    List (ValidatorPlugin δ ε) → List String → Except (FbError ε) ValidationResult
  | [], acc => .ok ⟨acc.isEmpty, acc⟩
  | v :: rest, acc =>
    match v.validate data with
    | .error e => .error (.plugin v.name .validate e)
    | .ok r => runValidatorsAux data rest (acc ++ if r.valid then [] else r.errors)

/-- `runValidators` from src/core/pipeline.ts. -/
def runValidators (vs : List (ValidatorPlugin δ ε)) (data : δ) :
    Except (FbError ε) ValidationResult :=
  runValidatorsAux data vs []

/-- `runTransformers`: strictly sequential, each receiving the previous
output; a thrown transformer short-circuits with phase `transform`. -/
def runTransformers (ts : List (TransformerPlugin δ ε)) (item : FeedbackItem δ) :
    Except (FbError ε) (FeedbackItem δ) :=
  match ts with
  | [] => .ok item
  | t :: rest =>
    match t.transform item with
    | .error e => .error (.plugin t.name .transform e)
    | .ok item2 => runTransformers rest item2

/-- `runHandlers`, sequential path.  In the default parallel mode the
fail-fast choice among simultaneously rejecting handlers depends on
completion timing, which a deterministic embedding cannot observe; the
first failing handler in registration order is reported, with phase
`handle` either way. -/
def runHandlers (hs : List (HandlerPlugin δ ε)) (item : FeedbackItem δ) :
    Except (FbError ε) Unit :=
  match hs with
  | [] => .ok ()
  | h :: rest =>
    match h.handle item with
    | .error e => .error (.plugin h.name .handle e)
    | .ok _ => runHandlers rest item

/-! ## Orchestrator (src/core/collector.ts) -/

/-- The configured state of a `FeedbackCollector`: configuration, plugin
registry and hook lists.  Error hooks are identified by opaque ids; their
invocations are recorded in the trace returned by `executeCollection`. -/
structure CollectorModel (δ ε : Type) where
  ctype : String
  schemaCheck : Option (δ → ValidationResult)
  defaultMetadata : Metadata
  retry : Option (RetryOptions (FbError ε))
  plugins : PluginRegistry δ ε
  beforeHooks : List (CollectionContext δ → Except (FbError ε) Bool)
  afterHooks : List (FeedbackItem δ → Except (FbError ε) Unit)
  errorHooks : List ℕ

/-- `use`: register the plugin, then invoke its install hook if present;
an install failure is wrapped into a `PluginError` with phase `install`.
The registration itself is not undone. -/
def usePlugin (c : CollectorModel δ ε) (p : FeedbackPlugin δ ε) :
    CollectorModel δ ε × Except (FbError ε) Unit :=
  let c2 := { c with plugins := registerPlugin c.plugins p }
  match p.install with
  | some (.error e) => (c2, .error (.plugin p.name .install e))
  | some (.ok _) => (c2, .ok ())
  | none => (c2, .ok ())

/-- The collector's `validate`: the configured schema check runs first
and short-circuits on failure; otherwise the plugin validators run. -/
def validateM (c : CollectorModel δ ε) (data : δ) :
    Except (FbError ε) ValidationResult :=
  match c.schemaCheck with
  | some f =>
    let r := f data
    if r.valid then runValidators c.plugins.validators data else .ok r
  | none => runValidators c.plugins.validators data

/-- Shallow merge `{...defaultMetadata, ...metadata}`: keys of the
default keep their position with per-call values taking precedence, new
per-call keys follow. -/
def mergeMeta (d m : Metadata) : Metadata :=
  d.map (fun kv => (kv.1, ((m.lookup kv.1).getD kv.2))) ++
    m.filter (fun kv => (d.lookup kv.1).isNone)

/-- The `for (const hook of this.hooks.beforeCollect)` loop: each hook is
awaited in order; a `false` return raises `CollectionCancelledError`. -/
def runBeforeHooks (hooks : List (CollectionContext δ → Except (FbError ε) Bool))
    (ctx : CollectionContext δ) : Except (FbError ε) Unit :=
  match hooks with
  | [] => .ok ()
  | h :: rest =>
    match h ctx with
    | .error e => .error e
    | .ok false => .error (.cancelled "Cancelled by beforeCollect hook")
    | .ok true => runBeforeHooks rest ctx

/-- The after-collect hook loop: each hook awaited in order. -/
def runAfterHooks (hooks : List (FeedbackItem δ → Except (FbError ε) Unit))
    (item : FeedbackItem δ) : Except (FbError ε) Unit :=
  match hooks with
  | [] => .ok ()
  | h :: rest =>
    match h item with
    | .error e => .error e
    | .ok _ => runAfterHooks rest item

/-- `runHandlersWithRetry`: the handler stage, wrapped by `withRetry`
only when retry is configured.  A vetoed error propagates unwrapped; an
exhausted run raises `RetryExhaustedError`. -/
def runHandlersWithRetry (c : CollectorModel δ ε) (rand : ℕ → ℚ)
    (item : FeedbackItem δ) : Except (FbError ε) Unit :=
  match c.retry with
  | none => runHandlers c.plugins.handlers item
  | some ro =>
    match (withRetry (fun _ => runHandlers c.plugins.handlers item) ro rand).1 with
    | .ok _ => .ok ()
    | .vetoed e => .error e
    | .exhausted n last => .error (.retryExhausted n last)

/-- The `try` body of `executeCollection`: before-hooks, validation, item
construction with the fresh id `nextId` and the timestamp fixed at
invocation start, transformers, handlers (skipped when none are
registered, retry-wrapped when configured), after-hooks. -/
def executeCollectionBody (c : CollectorModel δ ε) (rand : ℕ → ℚ) (data : δ)
    (meta : Metadata) (ts : ℕ) (nextId : ℕ) :
    Except (FbError ε) (FeedbackItem δ) :=
  let merged := mergeMeta c.defaultMetadata meta
  match runBeforeHooks c.beforeHooks ⟨c.ctype, data, merged, ts⟩ with
  | .error e => .error e
  | .ok _ =>
    match validateM c data with
    | .error e => .error e
    | .ok vr =>
      if vr.valid then
        match runTransformers c.plugins.transformers ⟨nextId, c.ctype, data, merged, ts⟩ with
        | .error e => .error e
        | .ok item =>
          match (if c.plugins.handlers.isEmpty then Except.ok ()
                 else runHandlersWithRetry c rand item) with
          | .error e => .error e
          | .ok _ =>
            match runAfterHooks c.afterHooks item with
            | .error e => .error e
            | .ok _ => .ok item
      else .error (.validation vr.errors)

/-- `getErrorPhase`: attribute a failure to a phase for error hooks. -/
def getErrorPhase : FbError ε → Option String
  | .validation _ => some "validation"
  | .plugin _ .validate _ => some "validation"
  | .plugin _ .transform _ => some "transform"
  | .plugin _ .handle _ => some "handler"
  | _ => none

/-- `executeCollection` with its `catch`: on failure every registered
error hook is awaited in registration order with the error and its
attributed phase (the returned trace), and the same error is re-raised. -/
def executeCollection (c : CollectorModel δ ε) (rand : ℕ → ℚ) (data : δ)
    (meta : Metadata) (ts : ℕ) (nextId : ℕ) :
    Except (FbError ε) (FeedbackItem δ) × List (ℕ × FbError ε × Option String) :=
  match executeCollectionBody c rand data meta ts nextId with
  | .ok item => (.ok item, [])
  | .error e => (.error e, c.errorHooks.map (fun h => (h, e, getErrorPhase e)))

/-! ## Memory handler (built-in plugin) -/

/-- The last `n` elements of a list (JavaScript `slice(-n)` for `n > 0`). -/
def lastN (n : ℕ) (l : List α) : List α := l.drop (l.length - n)

/-- The state of a `MemoryHandler`: its `maxItems` bound (0 means
unlimited) and the stored items. -/
structure MemoryHandlerState (δ : Type) where
  maxItems : ℕ
  items : List (FeedbackItem δ)
deriving DecidableEq

namespace MemoryHandler

/-- `MemoryHandler.handle`: push the item, then enforce the bound by
keeping only the last `maxItems` elements when it is exceeded. -/
def handle (s : MemoryHandlerState δ) (item : FeedbackItem δ) :
    MemoryHandlerState δ :=
  let items := s.items ++ [item]
  if 0 < s.maxItems ∧ s.maxItems < items.length then
    { s with items := lastN s.maxItems items }
  else
    { s with items := items }

/-- Handle a whole arrival sequence in order. -/
def handleAll (s : MemoryHandlerState δ) (arrivals : List (FeedbackItem δ)) :
    MemoryHandlerState δ :=
  arrivals.foldl handle s

end MemoryHandler

/-! ## General helper lemmas -/

theorem abs_min_sub_min (a b m : ℚ) : |min a m - min b m| ≤ |a - b| := by
  have h1 := le_abs_self (a - b)
  have h2 := neg_abs_le (a - b)
  rcases le_total a m with ha | ha <;> rcases le_total b m with hb | hb <;>
    rw [abs_le] <;>
    simp only [min_eq_left, min_eq_right, ha, hb] <;>
    constructor <;> linarith

theorem jsRound_bounds (lo hi : ℤ) (x : ℚ) (h1 : (lo : ℚ) ≤ x) (h2 : x ≤ (hi : ℚ)) :
    lo ≤ jsRound x ∧ jsRound x ≤ hi := by
  constructor
  · exact Int.le_floor.mpr (by linarith)
  · have : jsRound x < hi + 1 := Int.floor_lt.mpr (by push_cast; linarith)
    omega

theorem lastN_of_le {l : List α} {n : ℕ} (h : l.length ≤ n) : lastN n l = l := by
  unfold lastN
  rw [Nat.sub_eq_zero_of_le h, List.drop_zero]

theorem lastN_length_le (n : ℕ) (l : List α) : (lastN n l).length ≤ n := by
  simp only [lastN, List.length_drop]
  omega

theorem lastN_lastN_append (n : ℕ) (l r : List α) :
    lastN n (lastN n l ++ r) = lastN n (l ++ r) := by
  unfold lastN
  rw [← List.drop_append_of_le_length (Nat.sub_le l.length n), List.drop_drop]
  congr 1
  simp only [List.length_drop, List.length_append]
  omega

/-! ## Memory handler lemmas (claim C10) -/

theorem MemoryHandler.handle_zero (cur : List (FeedbackItem δ)) (a : FeedbackItem δ) :
    MemoryHandler.handle ⟨0, cur⟩ a = ⟨0, cur ++ [a]⟩ := by
  simp [MemoryHandler.handle]

theorem MemoryHandler.handle_pos (s : MemoryHandlerState δ) (a : FeedbackItem δ)
    (h : 0 < s.maxItems) :
    MemoryHandler.handle s a = ⟨s.maxItems, lastN s.maxItems (s.items ++ [a])⟩ := by
  obtain ⟨mx, items⟩ := s
  simp only at h
  show (if 0 < mx ∧ mx < (items ++ [a]).length then
      ({ maxItems := mx, items := lastN mx (items ++ [a]) } : MemoryHandlerState δ)
    else { maxItems := mx, items := items ++ [a] }) = _
  by_cases hlen : mx < (items ++ [a]).length
  · rw [if_pos ⟨h, hlen⟩]
  · rw [if_neg (fun hc => hlen hc.2), lastN_of_le (by simp only [List.length_append] at hlen ⊢; omega)]

theorem MemoryHandler.handleAll_zero (arrivals cur : List (FeedbackItem δ)) :
    (MemoryHandler.handleAll ⟨0, cur⟩ arrivals).items = cur ++ arrivals := by
  induction arrivals generalizing cur with
  | nil => simp [MemoryHandler.handleAll]
  | cons a rest ih =>
    show (MemoryHandler.handleAll (MemoryHandler.handle ⟨0, cur⟩ a) rest).items = _
    rw [MemoryHandler.handle_zero, ih]
    simp

theorem MemoryHandler.handleAll_pos (n : ℕ) (hn : 0 < n)
    (arrivals : List (FeedbackItem δ)) :
    ∀ cur : List (FeedbackItem δ), cur.length ≤ n →
      (MemoryHandler.handleAll ⟨n, cur⟩ arrivals).items = lastN n (cur ++ arrivals) := by
  induction arrivals with
  | nil =>
    intro cur hc
    simp only [MemoryHandler.handleAll, List.foldl_nil, List.append_nil]
    rw [lastN_of_le hc]
  | cons a rest ih =>
    intro cur hc
    show (MemoryHandler.handleAll (MemoryHandler.handle ⟨n, cur⟩ a) rest).items = _
    rw [MemoryHandler.handle_pos _ _ hn, ih _ (lastN_length_le n _), lastN_lastN_append]
    simp

/-- Claim C10: for a MemoryHandler with `maxItems = n > 0`, after any
sequence of `handle` calls the store holds at most `n` items, namely the
most recently handled ones in arrival order (`lastN n`); with the default
`maxItems = 0` every item is appended and storage is unbounded. -/
theorem memory_handler_retention (n : ℕ) (arrivals : List (FeedbackItem δ)) :
    (n = 0 → (MemoryHandler.handleAll ⟨0, []⟩ arrivals).items = arrivals) ∧
    (0 < n → (MemoryHandler.handleAll ⟨n, []⟩ arrivals).items = lastN n arrivals ∧
      (MemoryHandler.handleAll ⟨n, []⟩ arrivals).items.length ≤ n) := by
  constructor
  · intro _
    simpa using MemoryHandler.handleAll_zero arrivals []
  · intro hn
    have h := MemoryHandler.handleAll_pos n hn arrivals [] (by simp)
    simp only [List.nil_append] at h
    exact ⟨h, h ▸ lastN_length_le n arrivals⟩

/-- Witness for C10: three items through a `maxItems = 2` handler keep
exactly the last two. -/
theorem memory_handler_retention_witness :
    0 < 2 ∧
    ((MemoryHandler.handleAll (⟨2, []⟩ : MemoryHandlerState ℕ)
        [⟨1, "t", 1, [], 0⟩, ⟨2, "t", 2, [], 0⟩, ⟨3, "t", 3, [], 0⟩]).items
      = lastN 2 [⟨1, "t", 1, [], 0⟩, ⟨2, "t", 2, [], 0⟩, ⟨3, "t", 3, [], 0⟩] ∧
     (MemoryHandler.handleAll (⟨2, []⟩ : MemoryHandlerState ℕ)
        [⟨1, "t", 1, [], 0⟩, ⟨2, "t", 2, [], 0⟩, ⟨3, "t", 3, [], 0⟩]).items.length ≤ 2) :=
  ⟨by norm_num,
   (memory_handler_retention 2
     [⟨1, "t", 1, [], 0⟩, ⟨2, "t", 2, [], 0⟩, ⟨3, "t", 3, [], 0⟩]).2 (by norm_num)⟩

/-! ## Coalescing scheduler theorems (claims C1, C3) -/

/-- Claim C1 concerns the leading-edge rule: the spec requires that with
`leading = true` the first call of a burst executes immediately and later
calls of the same burst do not trigger a second execution.  The code
violates this: `execute` resets `leadingExecuted` synchronously, so the
guard in `call` never blocks and every call of the burst fires its own
immediate execution.  Here a two-call burst produces two executions. -/
theorem leading_burst_double_executes :
    (callBurst ⟨100, none, true⟩ (initState ℕ) [(10, 0), (20, 1)]).2
      = [(10, [0]), (20, [1])] ∧
    ((callBurst ⟨100, none, true⟩ (initState ℕ) [(10, 0), (20, 1)]).2).length ≠ 1 := by
  constructor
  · rfl
  · decide

theorem call_trailing (o : DebouncerOptions) (ho : o.leading = false)
    (s : DebouncerState σ) (args : σ) (pid : ℕ) :
    (call o s args pid).2 = [] ∧
    (call o s args pid).1.pendingPromises = s.pendingPromises ++ [pid] ∧
    (call o s args pid).1.lastArgs = some args := by
  unfold call
  rw [ho]
  simp only [Bool.false_and, Bool.and_eq_true, if_neg Bool.false_ne_true]
  split <;> simp

theorem callBurst_trailing (o : DebouncerOptions) (ho : o.leading = false) :
    ∀ (calls : List (σ × ℕ)) (s : DebouncerState σ) (la : σ × ℕ),
      calls.getLast? = some la →
      (callBurst o s calls).2 = [] ∧
      (callBurst o s calls).1.pendingPromises = s.pendingPromises ++ calls.map Prod.snd ∧
      (callBurst o s calls).1.lastArgs = some la.1 := by
  intro calls
  induction calls with
  | nil => intro s la h; simp at h
  | cons c rest ih =>
    intro s la h
    obtain ⟨a, pid⟩ := c
    obtain ⟨hc2, hcp, hcl⟩ := call_trailing o ho s a pid
    cases rest with
    | nil =>
      simp only [List.getLast?_singleton, Option.some.injEq] at h
      subst h
      simp only [callBurst, List.map_cons, List.map_nil]
      exact ⟨by simp [hc2], by simp [hcp], hcl⟩
    | cons r2 rs =>
      have h2 : (r2 :: rs).getLast? = some la := by
        rwa [List.getLast?_cons_cons] at h
      obtain ⟨ih2, ihp, ihl⟩ := ih (call o s a pid).1 la h2
      refine ⟨?_, ?_, ?_⟩
      · show (call o s a pid).2 ++ (callBurst o (call o s a pid).1 (r2 :: rs)).2 = []
        rw [hc2, ih2]
        rfl
      · show (callBurst o (call o s a pid).1 (r2 :: rs)).1.pendingPromises = _
        rw [ihp, hcp]
        simp
      · exact ihl

/-- Claim C3: in a trailing-mode burst, buffering the calls triggers no
execution; when the batch then executes, the wrapped operation is invoked
exactly once, with the most recently recorded arguments and with the
waiter list holding every caller of the burst in order; settlement then
delivers the one outcome of that single invocation to every waiter —
no caller is dropped. -/
theorem coalesced_batch_single_execution (o : DebouncerOptions)
    (calls : List (σ × ℕ)) (la : σ × ℕ) (ho : o.leading = false)
    (h : calls.getLast? = some la) :
    (callBurst o (initState σ) calls).2 = [] ∧
    (execute (callBurst o (initState σ) calls).1).2 = [(la.1, calls.map Prod.snd)] ∧
    ∀ (ρ : Type) (out : ρ) (w : ℕ), w ∈ calls.map Prod.snd →
      (w, out) ∈ settle out (calls.map Prod.snd) := by
  obtain ⟨h2, hp, hl⟩ := callBurst_trailing o ho calls (initState σ) la h
  refine ⟨h2, ?_, ?_⟩
  · simp only [execute, hl]
    rw [hp]
    simp [initState]
  · intro ρ out w hw
    exact List.mem_map_of_mem _ hw

/-- Witness for C3: three buffered calls with distinct arguments execute
once with the last arguments and all three waiters. -/
theorem coalesced_batch_witness :
    ((⟨100, none, false⟩ : DebouncerOptions).leading = false ∧
      ([(1, 0), (2, 1), (3, 2)] : List (ℕ × ℕ)).getLast? = some (3, 2)) ∧
    ((callBurst ⟨100, none, false⟩ (initState ℕ) [(1, 0), (2, 1), (3, 2)]).2 = [] ∧
     (execute (callBurst ⟨100, none, false⟩ (initState ℕ) [(1, 0), (2, 1), (3, 2)]).1).2
        = [(3, [0, 1, 2])] ∧
     ∀ (ρ : Type) (out : ρ) (w : ℕ), w ∈ ([(1, 0), (2, 1), (3, 2)] : List (ℕ × ℕ)).map Prod.snd →
       (w, out) ∈ settle out (([(1, 0), (2, 1), (3, 2)] : List (ℕ × ℕ)).map Prod.snd)) := by
  refine ⟨⟨rfl, rfl⟩, ?_⟩
  have h := coalesced_batch_single_execution ⟨100, none, false⟩
    [(1, 0), (2, 1), (3, 2)] (3, 2) rfl rfl
  simpa using h

/-! ## Retry delay theorems (claim C2) -/

theorem rawDelay_nonneg (backoff : Backoff) (attempt : ℕ) (baseDelay : ℚ)
    (h : 0 ≤ baseDelay) : 0 ≤ rawDelay backoff attempt baseDelay := by
  cases backoff with
  | exponential => exact mul_nonneg h (by positivity)
  | linear => exact mul_nonneg h (by positivity)
  | fixed => exact h

/-- Claim C2: the delay computed for a failed attempt equals the policy
value clamped to `[0, maxDelay]`, perturbed by a jitter of magnitude at
most 10% of the pre-clamp policy value, re-clamped to `maxDelay` and
rounded; in the exponential example `baseDelay=100, maxDelay=10000` the
delay after the first failure lies in `[90, 110]` and after the second in
`[180, 220]`. -/
theorem backoff_delay_clamp_jitter_round
    (backoff : Backoff) (attempt : ℕ) (baseDelay maxDelay rand : ℚ)
    (_hatt : 1 ≤ attempt) (hbase : 0 ≤ baseDelay) (_hmax : 0 ≤ maxDelay)
    (hr0 : 0 ≤ rand) (hr1 : rand ≤ 1) :
    (∃ j : ℚ, |j| ≤ rawDelay backoff attempt baseDelay / 10 ∧
      calculateDelay attempt baseDelay maxDelay backoff rand
        = jsRound (min (min (max (rawDelay backoff attempt baseDelay) 0) maxDelay + j)
            maxDelay)) ∧
    (90 ≤ calculateDelay 1 100 10000 Backoff.exponential rand ∧
     calculateDelay 1 100 10000 Backoff.exponential rand ≤ 110) ∧
    (180 ≤ calculateDelay 2 100 10000 Backoff.exponential rand ∧
     calculateDelay 2 100 10000 Backoff.exponential rand ≤ 220) := by
  have hjit : ∀ P : ℚ, 0 ≤ P → |P * (1 / 10) * (rand * 2 - 1)| ≤ P / 10 := by
    intro P hP
    rw [abs_mul, abs_mul]
    have h1 : |rand * 2 - 1| ≤ 1 := by rw [abs_le]; constructor <;> linarith
    rw [abs_of_nonneg hP, show |(1:ℚ) / 10| = 1 / 10 by norm_num]
    calc P * (1 / 10) * |rand * 2 - 1| ≤ P * (1 / 10) * 1 :=
          mul_le_mul_of_nonneg_left h1 (by positivity)
      _ = P / 10 := by ring
  refine ⟨?_, ?_, ?_⟩
  · have hpol0 : 0 ≤ rawDelay backoff attempt baseDelay :=
      rawDelay_nonneg backoff attempt baseDelay hbase
    refine ⟨min (rawDelay backoff attempt baseDelay
        + rawDelay backoff attempt baseDelay * (1 / 10) * (rand * 2 - 1)) maxDelay
        - min (rawDelay backoff attempt baseDelay) maxDelay, ?_, ?_⟩
    · calc |_| ≤ |(rawDelay backoff attempt baseDelay
              + rawDelay backoff attempt baseDelay * (1 / 10) * (rand * 2 - 1))
            - rawDelay backoff attempt baseDelay| := abs_min_sub_min _ _ _
        _ = |rawDelay backoff attempt baseDelay * (1 / 10) * (rand * 2 - 1)| := by
            ring_nf
        _ ≤ rawDelay backoff attempt baseDelay / 10 := hjit _ hpol0
    · rw [max_eq_left hpol0]
      have hc : min (rawDelay backoff attempt baseDelay) maxDelay
          + (min (rawDelay backoff attempt baseDelay
              + rawDelay backoff attempt baseDelay * (1 / 10) * (rand * 2 - 1)) maxDelay
            - min (rawDelay backoff attempt baseDelay) maxDelay)
          = min (rawDelay backoff attempt baseDelay
              + rawDelay backoff attempt baseDelay * (1 / 10) * (rand * 2 - 1)) maxDelay := by
        ring
      rw [hc, min_assoc, min_self]
      simp only [calculateDelay]
  · have heq : calculateDelay 1 100 10000 Backoff.exponential rand
        = jsRound (min ((100 : ℚ) + 100 * (1 / 10) * (rand * 2 - 1)) 10000) := by
      simp only [calculateDelay, rawDelay]
      norm_num
    rw [heq, min_eq_left (by linarith)]
    exact jsRound_bounds 90 110 _ (by push_cast; linarith) (by push_cast; linarith)
  · have heq : calculateDelay 2 100 10000 Backoff.exponential rand
        = jsRound (min ((200 : ℚ) + 200 * (1 / 10) * (rand * 2 - 1)) 10000) := by
      simp only [calculateDelay, rawDelay]
      norm_num
    rw [heq, min_eq_left (by linarith)]
    exact jsRound_bounds 180 220 _ (by push_cast; linarith) (by push_cast; linarith)

/-- Witness for C2 at the random draw `1/2`. -/
theorem backoff_delay_witness :
    ((0:ℚ) ≤ 100 ∧ (0:ℚ) ≤ 10000 ∧ (0:ℚ) ≤ 1 / 2 ∧ (1:ℚ) / 2 ≤ 1) ∧
    (90 ≤ calculateDelay 1 100 10000 Backoff.exponential (1 / 2) ∧
     calculateDelay 1 100 10000 Backoff.exponential (1 / 2) ≤ 110) ∧
    (180 ≤ calculateDelay 2 100 10000 Backoff.exponential (1 / 2) ∧
     calculateDelay 2 100 10000 Backoff.exponential (1 / 2) ≤ 220) ∧
    (∃ j : ℚ, |j| ≤ rawDelay Backoff.fixed 1 100 / 10 ∧
      calculateDelay 1 100 10000 Backoff.fixed (1 / 2)
        = jsRound (min (min (max (rawDelay Backoff.fixed 1 100) 0) 10000 + j) 10000)) := by
  have h := backoff_delay_clamp_jitter_round Backoff.fixed 1 100 10000 (1 / 2)
    (by norm_num) (by norm_num) (by norm_num) (by norm_num) (by norm_num)
  exact ⟨⟨by norm_num, by norm_num, by norm_num, by norm_num⟩, h.2.1, h.2.2, h.1⟩

/-! ## Retry control-flow theorems (claims C4, C5) -/

theorem retryGo_skip (fn : ℕ → Except ε α) (o : RetryOptions ε) (rand : ℕ → ℚ)
    (errOf : ℕ → ε) :
    ∀ (c a : ℕ) (last : Option ε), 1 ≤ a → a + c ≤ o.attempts →
    (∀ k, a ≤ k → k < a + c → fn k = .error (errOf k) ∧ shouldRetry o (errOf k) = true) →
    retryGo fn o rand (o.attempts + 1 - a) a last
      = ((retryGo fn o rand (o.attempts + 1 - (a + c)) (a + c)
            (if c = 0 then last else some (errOf (a + c - 1)))).1,
         retrySeg o rand errOf c a
           ++ (retryGo fn o rand (o.attempts + 1 - (a + c)) (a + c)
                (if c = 0 then last else some (errOf (a + c - 1)))).2) := by
  intro c
  induction c with
  | zero =>
    intro a last _ _ _
    simp [retrySeg]
  | succ c ih =>
    intro a last ha hle hfail
    obtain ⟨fa, sa⟩ := hfail a (le_refl a) (by omega)
    have hfuel : o.attempts + 1 - a = (o.attempts - a) + 1 := by omega
    rw [hfuel]
    simp only [retryGo, fa, sa]
    rw [if_neg (by simp), if_neg (by omega)]
    have hfuel2 : o.attempts - a = o.attempts + 1 - (a + 1) := by omega
    rw [hfuel2,
      ih (a + 1) (some (errOf a)) (by omega) (by omega)
        (fun k hk1 hk2 => hfail k (by omega) (by omega))]
    have harg : a + 1 + c = a + (c + 1) := by omega
    have hlast : (if c = 0 then some (errOf a) else some (errOf (a + 1 + c - 1)))
        = some (errOf (a + (c + 1) - 1)) := by
      by_cases hc : c = 0
      · subst hc
        simp
      · rw [if_neg hc]
        have : a + 1 + c - 1 = a + (c + 1) - 1 := by omega
        rw [this]
    rw [harg] at hlast
    rw [harg, hlast]
    simp [retrySeg]

/-- Claim C4: with a configured `retryOn` predicate, an attempt whose
error the predicate vetoes makes `withRetry` abort at once: the original
error propagates unwrapped (`vetoed`, not `exhausted`), and the trace
shows no later attempt, no `onRetry` call and no sleep after the vetoed
attempt. -/
theorem retryOn_veto_aborts (fn : ℕ → Except ε α) (o : RetryOptions ε)
    (rand : ℕ → ℚ) (p : ε → Bool) (errOf : ℕ → ε) (n : ℕ) (e : ε)
    (hro : o.retryOn = some p) (hn1 : 1 ≤ n) (hn2 : n ≤ o.attempts)
    (hfail : ∀ k, 1 ≤ k → k < n → fn k = .error (errOf k) ∧ p (errOf k) = true)
    (hfn : fn n = .error e) (hveto : p e = false) :
    withRetry fn o rand
      = (RetryResult.vetoed e, retrySeg o rand errOf (n - 1) 1 ++ [RetryEvent.tried n]) := by
  unfold withRetry
  conv_lhs => rw [show o.attempts = o.attempts + 1 - 1 from by omega]
  have hskip := retryGo_skip fn o rand errOf (n - 1) 1 none (le_refl 1) (by omega)
    (by
      intro k hk1 hk2
      have h := hfail k hk1 (by omega)
      exact ⟨h.1, by simp [shouldRetry, hro, h.2]⟩)
  rw [show 1 + (n - 1) = n from by omega] at hskip
  rw [hskip]
  have hfuel : o.attempts + 1 - n = (o.attempts - n) + 1 := by omega
  rw [hfuel]
  simp only [retryGo, hfn]
  rw [if_pos (by simp [shouldRetry, hro, hveto])]

/-- Witness for C4: a veto on the very first failure, with three allowed
attempts: only one attempt occurs and the original error propagates. -/
theorem retryOn_veto_witness :
    ((⟨3, 100, 10000, Backoff.fixed, some (fun _ => false)⟩ : RetryOptions ℕ).retryOn
        = some (fun _ => false) ∧ 1 ≤ 1 ∧
      1 ≤ (⟨3, 100, 10000, Backoff.fixed, some (fun _ => false)⟩ : RetryOptions ℕ).attempts ∧
      (fun _ => Except.error 7 : ℕ → Except ℕ ℕ) 1 = .error 7 ∧
      (fun _ => false : ℕ → Bool) 7 = false) ∧
    withRetry (fun _ => Except.error 7 : ℕ → Except ℕ ℕ)
        ⟨3, 100, 10000, Backoff.fixed, some (fun _ => false)⟩ (fun _ => 0)
      = (RetryResult.vetoed 7, [RetryEvent.tried 1]) := by
  refine ⟨⟨rfl, le_refl 1, by norm_num, rfl, rfl⟩, ?_⟩
  have h := retryOn_veto_aborts (fun _ => Except.error 7 : ℕ → Except ℕ ℕ)
    ⟨3, 100, 10000, Backoff.fixed, some (fun _ => false)⟩ (fun _ => 0)
    (fun _ => false) (fun _ => 7) 1 7 rfl (le_refl 1) (by norm_num)
    (by intro k hk1 hk2; omega) rfl rfl
  simpa [retrySeg] using h

/-- Claim C5: with at least one attempt and no `retryOn` veto on the
errors encountered, a successful attempt returns its result immediately
(no later attempt, no sleep after it), and if every allowed attempt
fails the run ends `exhausted` carrying the attempt count and the last
underlying error. -/
theorem retry_success_and_exhaustion (fn : ℕ → Except ε α) (o : RetryOptions ε)
    (rand : ℕ → ℚ) (errOf : ℕ → ε) (n : ℕ)
    (hn1 : 1 ≤ n) (hn2 : n ≤ o.attempts)
    (hfail : ∀ k, 1 ≤ k → k < n → fn k = .error (errOf k) ∧ shouldRetry o (errOf k) = true) :
    (∀ a : α, fn n = .ok a →
      withRetry fn o rand
        = (RetryResult.ok a, retrySeg o rand errOf (n - 1) 1 ++ [RetryEvent.tried n])) ∧
    (n = o.attempts → fn n = .error (errOf n) → shouldRetry o (errOf n) = true →
      withRetry fn o rand
        = (RetryResult.exhausted o.attempts (some (errOf n)),
           retrySeg o rand errOf (n - 1) 1 ++ [RetryEvent.tried n])) := by
  have hskip := retryGo_skip fn o rand errOf (n - 1) 1 none (le_refl 1) (by omega)
    (by intro k hk1 hk2; exact hfail k hk1 (by omega))
  rw [show 1 + (n - 1) = n from by omega] at hskip
  have hfuel : o.attempts + 1 - n = (o.attempts - n) + 1 := by omega
  constructor
  · intro a hok
    unfold withRetry
    conv_lhs => rw [show o.attempts = o.attempts + 1 - 1 from by omega]
    rw [hskip, hfuel]
    simp only [retryGo, hok]
  · intro hEq hErr hRet
    unfold withRetry
    conv_lhs => rw [show o.attempts = o.attempts + 1 - 1 from by omega]
    rw [hskip, hfuel]
    simp only [retryGo, hErr]
    rw [if_neg (by simp [hRet]), if_pos (by omega)]

/-- Witness for C5: with `attempts = 3`, exponential backoff from 100 and
the jitter draw `1/2`, a third-attempt success returns it after two
retries, and three failures end exhausted with the last error. -/
theorem retry_success_and_exhaustion_witness :
    (1 ≤ 3 ∧ 3 ≤ (⟨3, 100, 10000, Backoff.exponential, none⟩ : RetryOptions ℕ).attempts) ∧
    withRetry (fun k => if k < 3 then Except.error 9 else Except.ok 42)
        (⟨3, 100, 10000, Backoff.exponential, none⟩ : RetryOptions ℕ) (fun _ => 1 / 2)
      = (RetryResult.ok 42,
         [RetryEvent.tried 1, RetryEvent.onRetry 1 9 100, RetryEvent.sleep 100,
          RetryEvent.tried 2, RetryEvent.onRetry 2 9 200, RetryEvent.sleep 200,
          RetryEvent.tried 3]) ∧
    withRetry (fun _ => (Except.error 9 : Except ℕ ℕ))
        (⟨3, 100, 10000, Backoff.exponential, none⟩ : RetryOptions ℕ) (fun _ => 1 / 2)
      = (RetryResult.exhausted 3 (some 9),
         [RetryEvent.tried 1, RetryEvent.onRetry 1 9 100, RetryEvent.sleep 100,
          RetryEvent.tried 2, RetryEvent.onRetry 2 9 200, RetryEvent.sleep 200,
          RetryEvent.tried 3]) := by
  have hd1 : calculateDelay 1 100 10000 Backoff.exponential (1 / 2) = 100 := by
    norm_num [calculateDelay, rawDelay, jsRound]
  have hd2 : calculateDelay 2 100 10000 Backoff.exponential (1 / 2) = 200 := by
    norm_num [calculateDelay, rawDelay, jsRound]
  refine ⟨⟨by norm_num, by norm_num⟩, ?_, ?_⟩
  · have h := (retry_success_and_exhaustion
      (fun k => if k < 3 then Except.error 9 else Except.ok 42)
      (⟨3, 100, 10000, Backoff.exponential, none⟩ : RetryOptions ℕ) (fun _ => 1 / 2)
      (fun _ => 9) 3 (by norm_num) (by norm_num)
      (by intro k hk1 hk2; exact ⟨by simp [hk2], rfl⟩)).1 42 (by norm_num)
    rw [h]
    norm_num [retrySeg, hd1, hd2]
  · have h := (retry_success_and_exhaustion
      (fun _ => (Except.error 9 : Except ℕ ℕ))
      (⟨3, 100, 10000, Backoff.exponential, none⟩ : RetryOptions ℕ) (fun _ => 1 / 2)
      (fun _ => 9) 3 (by norm_num) (by norm_num)
      (by intro k hk1 hk2; exact ⟨rfl, rfl⟩)).2 rfl rfl rfl
    rw [h]
    norm_num [retrySeg, hd1, hd2]

/-! ## Validator accumulation (claim C6) -/

theorem runValidatorsAux_ok (data : δ) (results : ValidatorPlugin δ ε → ValidationResult) :
    ∀ (vs : List (ValidatorPlugin δ ε)) (acc : List String),
      (∀ v, v ∈ vs → v.validate data = .ok (results v)) →
      (∀ v, v ∈ vs → (results v).valid = true → (results v).errors = []) →
      runValidatorsAux data vs acc
        = .ok ⟨(acc ++ (vs.map fun v => (results v).errors).flatten).isEmpty,
               acc ++ (vs.map fun v => (results v).errors).flatten⟩ := by
  intro vs
  induction vs with
  | nil =>
    intro acc _ _
    simp [runValidatorsAux]
  | cons v rest ih =>
    intro acc hok hwf
    have hv := hok v (List.mem_cons_self v rest)
    simp only [runValidatorsAux, hv]
    have hstep : (acc ++ if (results v).valid then [] else (results v).errors)
        = acc ++ (results v).errors := by
      by_cases hvv : (results v).valid
      · rw [if_pos hvv, hwf v (List.mem_cons_self v rest) hvv]
      · rw [if_neg hvv]
    rw [hstep,
      ih (acc ++ (results v).errors)
        (fun w hw => hok w (List.mem_cons_of_mem v hw))
        (fun w hw => hwf w (List.mem_cons_of_mem v hw))]
    simp [List.flatten, List.append_assoc]

/-- Claim C6: every validator runs even after one reports invalid; the
combined result's error list is the concatenation of the individual
error lists in registration order, and `valid` holds exactly when that
list is empty.  The hypotheses say that no validator throws and that each
result respects the `ValidationResult` contract (`valid` implies an empty
error list). -/
theorem validators_accumulate_in_order (vs : List (ValidatorPlugin δ ε)) (data : δ)
    (results : ValidatorPlugin δ ε → ValidationResult)
    (hok : ∀ v, v ∈ vs → v.validate data = .ok (results v))
    (hwf : ∀ v, v ∈ vs → (results v).valid = true → (results v).errors = []) :
    runValidators vs data
      = .ok ⟨((vs.map fun v => (results v).errors).flatten).isEmpty,
             (vs.map fun v => (results v).errors).flatten⟩ := by
  have h := runValidatorsAux_ok data results vs [] hok hwf
  simpa [runValidators] using h

/-- Witness for C6: validators A then B, both invalid, accumulate
`A`'s errors before `B`'s. -/
theorem validators_accumulate_witness :
    ((⟨"A", fun _ => .ok ⟨false, ["a1", "a2"]⟩⟩ : ValidatorPlugin ℕ Unit).validate 0
        = .ok ⟨false, ["a1", "a2"]⟩ ∧
     (⟨"B", fun _ => .ok ⟨false, ["b1"]⟩⟩ : ValidatorPlugin ℕ Unit).validate 0
        = .ok ⟨false, ["b1"]⟩) ∧
    runValidators
        [(⟨"A", fun _ => .ok ⟨false, ["a1", "a2"]⟩⟩ : ValidatorPlugin ℕ Unit),
         ⟨"B", fun _ => .ok ⟨false, ["b1"]⟩⟩] 0
      = .ok ⟨false, ["a1", "a2", "b1"]⟩ := by
  refine ⟨⟨rfl, rfl⟩, ?_⟩
  have h := validators_accumulate_in_order
    [(⟨"A", fun _ => .ok ⟨false, ["a1", "a2"]⟩⟩ : ValidatorPlugin ℕ Unit),
     ⟨"B", fun _ => .ok ⟨false, ["b1"]⟩⟩] 0
    (fun v => if v.name = "A" then ⟨false, ["a1", "a2"]⟩ else ⟨false, ["b1"]⟩)
    (by
      intro v hv
      rcases List.mem_cons.mp hv with rfl | hv2
      · simp
      · rcases List.mem_cons.mp hv2 with rfl | hv3
        · simp
        · simp at hv3)
    (by
      intro v hv
      rcases List.mem_cons.mp hv with rfl | hv2
      · simp
      · rcases List.mem_cons.mp hv2 with rfl | hv3
        · simp
        · simp at hv3)
  simpa using h

/-! ## Orchestrator theorems (claims C7, C8, C9) -/

theorem executeCollection_ok (c : CollectorModel δ ε) (rand : ℕ → ℚ) (data : δ)
    (meta : Metadata) (ts n : ℕ) (item : FeedbackItem δ)
    (h : (executeCollection c rand data meta ts n).1 = .ok item) :
    executeCollectionBody c rand data meta ts n = .ok item := by
  unfold executeCollection at h
  cases hb : executeCollectionBody c rand data meta ts n with
  | ok it =>
    simp only [hb] at h
    injection h with h2
    rw [← h2]
  | error e =>
    simp only [hb] at h
    exact Except.noConfusion h

theorem executeCollectionBody_ok_transform (c : CollectorModel δ ε) (rand : ℕ → ℚ)
    (data : δ) (meta : Metadata) (ts nextId : ℕ) (item : FeedbackItem δ)
    (h : executeCollectionBody c rand data meta ts nextId = .ok item) :
    runTransformers c.plugins.transformers
      ⟨nextId, c.ctype, data, mergeMeta c.defaultMetadata meta, ts⟩ = .ok item := by
  simp only [executeCollectionBody] at h
  cases hb : runBeforeHooks c.beforeHooks ⟨c.ctype, data, mergeMeta c.defaultMetadata meta, ts⟩ with
  | error e =>
    simp only [hb] at h
    exact Except.noConfusion h
  | ok u =>
    simp only [hb] at h
    cases hv : validateM c data with
    | error e =>
      simp only [hv] at h
      exact Except.noConfusion h
    | ok vr =>
      simp only [hv] at h
      by_cases hvv : vr.valid
      · rw [if_pos hvv] at h
        cases ht : runTransformers c.plugins.transformers
            ⟨nextId, c.ctype, data, mergeMeta c.defaultMetadata meta, ts⟩ with
        | error e =>
          simp only [ht] at h
          exact Except.noConfusion h
        | ok it2 =>
          simp only [ht] at h
          cases hh : (if c.plugins.handlers.isEmpty then Except.ok ()
              else runHandlersWithRetry c rand it2) with
          | error e =>
            simp only [hh] at h
            exact Except.noConfusion h
          | ok w =>
            simp only [hh] at h
            cases ha : runAfterHooks c.afterHooks it2 with
            | error e =>
              simp only [ha] at h
              exact Except.noConfusion h
            | ok w2 =>
              simp only [ha] at h
              injection h with h2
              rw [← h2]
      · rw [if_neg hvv] at h
        exact Except.noConfusion h

theorem runTransformers_preserve (tsl : List (TransformerPlugin δ ε))
    (hpres : ∀ t, t ∈ tsl → ∀ it it2 : FeedbackItem δ, t.transform it = .ok it2 →
      it2.itemType = it.itemType ∧ it2.id = it.id) :
    ∀ (it it2 : FeedbackItem δ), runTransformers tsl it = .ok it2 →
      it2.itemType = it.itemType ∧ it2.id = it.id := by
  induction tsl with
  | nil =>
    intro it it2 h
    simp only [runTransformers, Except.ok.injEq] at h
    rw [← h]
    exact ⟨rfl, rfl⟩
  | cons t rest ih =>
    intro it it2 h
    simp only [runTransformers] at h
    cases htr : t.transform it with
    | error e =>
      simp only [htr] at h
      exact Except.noConfusion h
    | ok mid =>
      simp only [htr] at h
      have h1 := hpres t (List.mem_cons_self t rest) it mid htr
      have h2 := ih (fun w hw => hpres w (List.mem_cons_of_mem t hw)) mid it2 h
      exact ⟨h2.1.trans h1.1, h2.2.trans h1.2⟩

/-- Counterexample to C7 as stated: a registered transformer may replace
the item entirely, so a successful `collect` can return an item whose
`type` differs from the collector's configured type (and whose id is
whatever the transformer chose). -/
theorem collect_type_counterexample :
    ∃ item : FeedbackItem ℕ,
      (executeCollection
        (⟨"nps", none, [], none,
          ⟨[], [⟨"rewriter", fun it => .ok ⟨999, "other", it.data, it.metadata, it.timestamp⟩⟩], []⟩,
          [], [], []⟩ : CollectorModel ℕ Unit)
        (fun _ => 0) 5 [] 0 7).1 = .ok item ∧
      item.itemType ≠ "nps" := by
  refine ⟨⟨999, "other", 5, [], 0⟩, rfl, by simp⟩

/-- Claim C7, amended: the item is constructed with the configured type
and the fresh id supplied by the external unique-ID generator; provided
every registered transformer preserves the `type` and `id` fields (in
particular when no transformers are registered), a successful `collect`
returns an item whose type equals the collector's configured type and
whose id is the invocation's fresh id — hence distinct from the id
returned by any other successful `collect` with a distinct fresh id. -/
theorem collect_type_and_fresh_id (c : CollectorModel δ ε)
    (hpres : ∀ t, t ∈ c.plugins.transformers → ∀ it it2 : FeedbackItem δ,
      t.transform it = .ok it2 → it2.itemType = it.itemType ∧ it2.id = it.id)
    (rand1 rand2 : ℕ → ℚ) (data1 data2 : δ) (meta1 meta2 : Metadata)
    (ts1 ts2 n1 n2 : ℕ) (item1 item2 : FeedbackItem δ)
    (h1 : (executeCollection c rand1 data1 meta1 ts1 n1).1 = .ok item1)
    (h2 : (executeCollection c rand2 data2 meta2 ts2 n2).1 = .ok item2)
    (hne : n1 ≠ n2) :
    item1.itemType = c.ctype ∧ item1.id = n1 ∧ item2.id = n2 ∧ item1.id ≠ item2.id := by
  have hb1 := executeCollectionBody_ok_transform c rand1 data1 meta1 ts1 n1 item1
    (executeCollection_ok c rand1 data1 meta1 ts1 n1 item1 h1)
  have hb2 := executeCollectionBody_ok_transform c rand2 data2 meta2 ts2 n2 item2
    (executeCollection_ok c rand2 data2 meta2 ts2 n2 item2 h2)
  have hp1 := runTransformers_preserve c.plugins.transformers hpres _ item1 hb1
  have hp2 := runTransformers_preserve c.plugins.transformers hpres _ item2 hb2
  refine ⟨hp1.1, hp1.2, hp2.2, ?_⟩
  rw [hp1.2, hp2.2]
  exact hne

/-- Witness for C7 (amended): two collections on a collector without
transformers, with fresh ids 7 and 8. -/
theorem collect_type_and_fresh_id_witness :
    ((executeCollection
        (⟨"nps", none, [], none, ⟨[], [], []⟩, [], [], []⟩ : CollectorModel ℕ Unit)
        (fun _ => 0) 5 [] 0 7).1 = .ok ⟨7, "nps", 5, [], 0⟩ ∧
     (executeCollection
        (⟨"nps", none, [], none, ⟨[], [], []⟩, [], [], []⟩ : CollectorModel ℕ Unit)
        (fun _ => 0) 6 [] 0 8).1 = .ok ⟨8, "nps", 6, [], 0⟩ ∧
     (7 : ℕ) ≠ 8) ∧
    ((⟨7, "nps", 5, [], 0⟩ : FeedbackItem ℕ).itemType = "nps" ∧
     (⟨7, "nps", 5, [], 0⟩ : FeedbackItem ℕ).id = 7 ∧
     (⟨8, "nps", 6, [], 0⟩ : FeedbackItem ℕ).id = 8 ∧
     (⟨7, "nps", 5, [], 0⟩ : FeedbackItem ℕ).id ≠ (⟨8, "nps", 6, [], 0⟩ : FeedbackItem ℕ).id) := by
  refine ⟨⟨rfl, rfl, by omega⟩, ?_⟩
  exact collect_type_and_fresh_id
    (⟨"nps", none, [], none, ⟨[], [], []⟩, [], [], []⟩ : CollectorModel ℕ Unit)
    (by intro t ht; simp at ht)
    (fun _ => 0) (fun _ => 0) 5 6 [] [] 0 0 7 8 ⟨7, "nps", 5, [], 0⟩ ⟨8, "nps", 6, [], 0⟩
    rfl rfl (by omega)

/-- Claim C8: when the collection body fails, every registered error
hook is invoked in registration order with the single failing error and
its attributed phase, and the same error is re-raised to the caller (no
partial item).  The phase attribution follows `getErrorPhase`: plugin
faults map `validate` to `validation`, `transform` to `transform`,
`handle` to `handler`; a bare validation failure maps to `validation`;
cancellations, retry exhaustion and install faults carry no phase. -/
theorem error_hooks_notified_then_rethrow (c : CollectorModel δ ε) (rand : ℕ → ℚ)
    (data : δ) (meta : Metadata) (ts n : ℕ) (e : FbError ε)
    (h : executeCollectionBody c rand data meta ts n = .error e) :
    executeCollection c rand data meta ts n
        = (.error e, c.errorHooks.map (fun hk => (hk, e, getErrorPhase e))) ∧
    (∀ (nm : String) (cause : ε),
      getErrorPhase (FbError.plugin nm Phase.validate cause) = some "validation") ∧
    (∀ (nm : String) (cause : ε),
      getErrorPhase (FbError.plugin nm Phase.transform cause) = some "transform") ∧
    (∀ (nm : String) (cause : ε),
      getErrorPhase (FbError.plugin nm Phase.handle cause) = some "handler") ∧
    (∀ errs : List String,
      getErrorPhase (FbError.validation errs : FbError ε) = some "validation") ∧
    (∀ r : String, getErrorPhase (FbError.cancelled r : FbError ε) = none) ∧
    (∀ (k : ℕ) (l : Option (FbError ε)), getErrorPhase (FbError.retryExhausted k l) = none) ∧
    (∀ (nm : String) (cause : ε),
      getErrorPhase (FbError.plugin nm Phase.install cause) = none) := by
  refine ⟨?_, fun _ _ => rfl, fun _ _ => rfl, fun _ _ => rfl, fun _ => rfl,
    fun _ => rfl, fun _ _ => rfl, fun _ _ => rfl⟩
  unfold executeCollection
  simp only [h]

/-- Witness for C8: a failing schema check with two error hooks — both
are notified with the validation error and phase `validation`, and the
error is re-raised. -/
theorem error_hooks_notified_witness :
    executeCollectionBody
        (⟨"nps", some (fun _ => ⟨false, ["bad"]⟩), [], none, ⟨[], [], []⟩,
          [], [], [0, 1]⟩ : CollectorModel ℕ Unit)
        (fun _ => 0) 5 [] 0 7 = .error (.validation ["bad"]) ∧
    executeCollection
        (⟨"nps", some (fun _ => ⟨false, ["bad"]⟩), [], none, ⟨[], [], []⟩,
          [], [], [0, 1]⟩ : CollectorModel ℕ Unit)
        (fun _ => 0) 5 [] 0 7
      = (.error (.validation ["bad"]),
         [(0, .validation ["bad"], some "validation"),
          (1, .validation ["bad"], some "validation")]) := by
  refine ⟨rfl, ?_⟩
  have h := (error_hooks_notified_then_rethrow
    (⟨"nps", some (fun _ => ⟨false, ["bad"]⟩), [], none, ⟨[], [], []⟩,
      [], [], [0, 1]⟩ : CollectorModel ℕ Unit)
    (fun _ => 0) 5 [] 0 7 (.validation ["bad"]) rfl).1
  rw [h]
  rfl

/-- Claim C9: `use` registers the plugin before invoking its install
hook; when the hook throws, a `PluginError` with phase `install` is
raised but the registration stands — the registry has grown by one and
the faulting plugin will participate in later pipeline runs. -/
theorem install_failure_plugin_stays_registered (c : CollectorModel δ ε)
    (p : FeedbackPlugin δ ε) (e : ε) (h : p.install = some (.error e)) :
    usePlugin c p = ({ c with plugins := registerPlugin c.plugins p },
        .error (.plugin p.name .install e)) ∧
    pluginCount (registerPlugin c.plugins p) = pluginCount c.plugins + 1 := by
  constructor
  · unfold usePlugin
    simp only [h]
  · obtain ⟨nm, kind, inst⟩ := p
    cases kind <;> simp [registerPlugin, pluginCount] <;> omega

/-- Witness for C9: a handler plugin whose install hook fails is still
appended to the registry. -/
theorem install_failure_witness :
    (⟨"bad", PluginKind.handler (fun _ => .ok ()), some (.error 3)⟩
        : FeedbackPlugin ℕ ℕ).install = some (.error 3) ∧
    (usePlugin (⟨"t", none, [], none, ⟨[], [], []⟩, [], [], []⟩ : CollectorModel ℕ ℕ)
        ⟨"bad", PluginKind.handler (fun _ => .ok ()), some (.error 3)⟩
      = ({ (⟨"t", none, [], none, ⟨[], [], []⟩, [], [], []⟩ : CollectorModel ℕ ℕ) with
            plugins := registerPlugin
              (⟨"t", none, [], none, ⟨[], [], []⟩, [], [], []⟩ : CollectorModel ℕ ℕ).plugins
              ⟨"bad", PluginKind.handler (fun _ => .ok ()), some (.error 3)⟩ },
         .error (.plugin "bad" .install 3)) ∧
     pluginCount (registerPlugin
        (⟨"t", none, [], none, ⟨[], [], []⟩, [], [], []⟩ : CollectorModel ℕ ℕ).plugins
        ⟨"bad", PluginKind.handler (fun _ => .ok ()), some (.error 3)⟩)
      = pluginCount (⟨"t", none, [], none, ⟨[], [], []⟩, [], [], []⟩
          : CollectorModel ℕ ℕ).plugins + 1) :=
  ⟨rfl,
   install_failure_plugin_stays_registered
     (⟨"t", none, [], none, ⟨[], [], []⟩, [], [], []⟩ : CollectorModel ℕ ℕ)
     ⟨"bad", PluginKind.handler (fun _ => .ok ()), some (.error 3)⟩ 3 rfl⟩

end FeedbackCore
